import Mathlib

set_option linter.unusedVariables false

/-! Shallow embedding of src/extract_dividends.py, the single pipeline of the
twelvedata-dividends-sample repository.

The remote world (HTTP responses, document contents, the date formatting of
the datetime library) is modelled by explicit oracle parameters: a function
application in the Python source that performs network I/O becomes a lookup
in an oracle supplied to the embedded function.  Parsed JSON responses are
modelled by structures with Option-valued fields (a missing key or a JSON
null becomes none, which is exactly how dict.get treats them).  Python
exceptions are modelled with Except: the one exception the pipeline itself
raises is the ValueError of make_api_request when the API key is missing.
-/

/-- One row of symbols.csv as produced by csv.DictReader. -/
structure CsvRow where
  symbol_ticker : String
  exchange : String
deriving DecidableEq, Repr

/-- Result of get_symbol_info: the dict with keys name and exchange. -/
structure InstrumentInfo where
  name : String
  exchange : String
deriving DecidableEq, Repr

/-- A matched document inside a retained filing: dict with url and type. -/
structure FilingDocument where
  url : String
  type : String
deriving DecidableEq, Repr

/-- A retained filing as appended to the reports list in get_sec_reports. -/
structure Filing where
  url : String
  filed_at : String
  files : List FilingDocument
deriving DecidableEq, Repr

/-- One projected dividend record: dict with ex_date and amount. -/
structure DividendEvent where
  ex_date : String
  amount : Rat
deriving DecidableEq, Repr

/-- The per-symbol output record built by process_symbol. -/
structure SymbolResult where
  ticker : String
  instrument_name : String
  exchange : String
  dividends : List DividendEvent
  sec_reports : List Filing
deriving DecidableEq, Repr

/-- One entry of the files array of a filing in the edgar response; both
keys are read with dict.get, hence Option. -/
structure FileInfo where
  url : Option String
  type : Option String
deriving DecidableEq, Repr

/-- One filing object of the edgar response values array.  files is absent
when the key files is not in the dict; filed_at and filing_url are read
with dict.get. -/
structure Report where
  files : Option (List FileInfo)
  filed_at : Option Int
  filing_url : Option String
deriving DecidableEq, Repr

/-- The JSON body returned by the edgar_filings/archive endpoint; values is
absent when the key is not present. -/
structure FilingsResponse where
  values : Option (List Report)
deriving DecidableEq, Repr

/-- One stock object of the stocks response.  otherKeys records whether the
JSON object carries any key beyond the two the code reads; it only matters
for Python dict truthiness (an empty dict is falsy). -/
structure StockRecord where
  name : Option String
  exchange : Option String
  otherKeys : Bool
deriving DecidableEq, Repr

/-- The value under the data key of the stocks response: either a JSON
array of stock objects or a single stock object. -/
inductive StocksData where
  | dlist (l : List StockRecord)
  | dobj (r : StockRecord)
deriving DecidableEq, Repr

/-- The JSON body returned by the stocks endpoint; data is absent when the
key data is not present or is null. -/
structure StocksResponse where
  data : Option StocksData
deriving DecidableEq, Repr

/-- One record of the dividends_calendar response; the three keys the code
reads are fetched with dict.get. -/
structure DivRecord where
  symbol : Option String
  ex_date : Option String
  amount : Option Rat
deriving DecidableEq, Repr

/-- The JSON body returned by the dividends_calendar endpoint: either a
flat JSON array, or any non-list JSON value (the code only tests
isinstance(data, list)). -/
inductive DividendsResponse where
  | jlist (records : List DivRecord)
  | nonList
deriving DecidableEq, Repr

/-- Python dict truthiness of a stock record: nonempty dict. -/
def StockRecord.isTruthy (r : StockRecord) : Bool :=
  r.name.isSome || r.exchange.isSome || r.otherKeys

/-- Python truthiness of the value under the data key: a list is truthy
when nonempty, a dict when nonempty. -/
def StocksData.isTruthy : StocksData → Bool
  | .dlist l => !l.isEmpty
  | .dobj r => r.isTruthy

/-- Accumulator of the main loop: results, successful_count, failed_count. -/
structure RunAcc where
  results : List SymbolResult
  successful_count : Nat
  failed_count : Nat
deriving DecidableEq, Repr

/-- Outcome of one call to make_api_request: the value returned (or the
ValueError raised), together with whether an HTTP request was attempted. -/
structure ApiCall (α : Type) where
  result : Except Unit (Option α)
  httpAttempted : Bool

/-- The remote world for one run: the API key from the environment, the
responses the three endpoints would deliver (none models a transport or
JSON-decode failure, which make_api_request turns into a None return), the
document contents behind each URL (none models a download failure, which
check_dividend_content turns into False), and the local-time date
formatting datetime.fromtimestamp-strftime applied to a filed_at value. -/
structure World where
  apiKey : Option String
  stocksResp : String → String → Option StocksResponse
  filingsResp : String → String → Option FilingsResponse
  dividendsResp : String → String → Option DividendsResponse
  fetch : String → Option String
  tsToDate : Int → String

/-- Python str.endswith, modelled on the character list (kernel Strings
are character lists, so list operations compute where the byte-based
library functions do not). -/
def pyEndsWith (s suffix : String) : Bool :=
  decide (suffix.toList <:+ s.toList)

/-- Python str.lower, modelled per character (the keyword and URLs here
are ASCII, where the two agree). -/
def pyLower (s : String) : String :=
  ⟨s.toList.map Char.toLower⟩

/-- Python in-operator on strings: substring occurrence. -/
def pyContains (s sub : String) : Bool :=
  decide (sub.toList <:+: s.toList)

/-- Python str.strip with no argument: drop whitespace from both ends. -/
def pyStrip (s : String) : String :=
  ⟨((s.toList.dropWhile Char.isWhitespace).reverse.dropWhile
      Char.isWhitespace).reverse⟩

/-- Python str.replace scan (all non-overlapping occurrences, left to
right), written with an explicit fuel so the recursion is structural and
computes in the kernel; every step consumes at least one input character,
so fuel equal to the input length suffices.  The pattern used in the
source is nonempty, which the guard records. -/
def pyReplaceFuel (pat rep : List Char) : Nat → List Char → List Char
  | 0, l => l
  | _ + 1, [] => []
  | n + 1, c :: rest =>
    if pat <+: (c :: rest) ∧ pat ≠ [] then
      rep ++ pyReplaceFuel pat rep n ((c :: rest).drop pat.length)
    else c :: pyReplaceFuel pat rep n rest

/-- Python str.replace with a nonempty pattern. -/
def pyReplace (s pat rep : String) : String :=
  ⟨pyReplaceFuel pat.toList rep.toList s.toList.length s.toList⟩

/-- load_symbols: read rows, strip both columns, keep a row only when both
stripped values are nonempty (truthy). -/
def load_symbols (rows : List CsvRow) : List (String × String) :=
  rows.filterMap (fun row =>
    let symbol := pyStrip row.symbol_ticker
    let exchange := pyStrip row.exchange
    if symbol ≠ "" ∧ exchange ≠ "" then some (symbol, exchange) else none)

/-- make_api_request: raise ValueError when the API key is falsy (absent or
empty), before any HTTP request; otherwise attempt the request and return
the parsed body, with transport and decode failures already folded into the
httpResult oracle as none. -/
def make_api_request {α : Type} (apiKey : Option String) (httpResult : Option α) :
    ApiCall α :=
  if apiKey.getD "" = "" then ⟨.error (), false⟩
  else ⟨.ok httpResult, true⟩

/-- The keyword test of check_dividend_content: the literal substring
dividend occurs in the lower-cased content. -/
def hasDividendKeyword (content : String) : Bool :=
  pyContains (pyLower content) "dividend"

/-- check_dividend_content: download the URL (a failure of the download, or
any unexpected error, is caught inside and yields False) and test the
lower-cased content for the substring dividend. -/
def check_dividend_content (fetch : String → Option String) (url : String) : Bool :=
  match fetch url with
  | none => false
  | some content => hasDividendKeyword content

/-- The htm_files list comprehension of get_sec_reports: keep the files
whose url (defaulting to the empty string) ends in .htm. -/
def htmFilesOf (files : List FileInfo) : List FileInfo :=
  files.filter (fun f => pyEndsWith (f.url.getD "") ".htm")

/-- One iteration of the inner file loop of get_sec_reports: skip a file
with a falsy url, normalize the url by collapsing the redirect segment, and
keep the file when its content matches the keyword. -/
def matchStep (fetch : String → Option String) (f : FileInfo) : Option FilingDocument :=
  let file_url := f.url.getD ""
  if file_url = "" then none
  else
    let file_url := pyReplace file_url "/ix?doc=/Archives" "/Archives"
    if check_dividend_content fetch file_url then
      some ⟨file_url, f.type.getD ""⟩
    else none

/-- The matched_files list accumulated by the inner file loop. -/
def matchedFilesOf (fetch : String → Option String) (hfiles : List FileInfo) :
    List FilingDocument :=
  hfiles.filterMap (matchStep fetch)

/-- The URL an iteration of the inner file loop passes to
check_dividend_content, when it reaches that call: a file with a falsy url
is skipped before the call, every other file is checked at its normalized
url. -/
def checkStep (f : FileInfo) : Option String :=
  let file_url := f.url.getD ""
  if file_url = "" then none
  else some (pyReplace file_url "/ix?doc=/Archives" "/Archives")

/-- All URLs the inner file loop passes to check_dividend_content. -/
def checkedUrlsOf (hfiles : List FileInfo) : List String :=
  hfiles.filterMap checkStep

/-- The filed_at conversion of get_sec_reports: dict.get with default 0,
then format the timestamp when truthy and use the empty string otherwise. -/
def filedAtStr (tsToDate : Int → String) (filed_at : Option Int) : String :=
  let filed_at_timestamp := filed_at.getD 0
  if filed_at_timestamp ≠ 0 then tsToDate filed_at_timestamp else ""

/-- One iteration of the outer report loop of get_sec_reports, paired with
the trace of URLs it hands to check_dividend_content: skip a report without
a files key, skip it when no file url ends in .htm, otherwise check every
remaining file and retain the report exactly when some file matched,
keeping only the matched files. -/
def processReportT (fetch : String → Option String) (tsToDate : Int → String)
    (report : Report) : Option Filing × List String :=
  match report.files with
  | none => (none, [])
  | some files =>
    let htm_files := htmFilesOf files
    if htm_files.isEmpty then (none, [])
    else
      let matched_files := matchedFilesOf fetch htm_files
      let checked := checkedUrlsOf htm_files
      if matched_files.isEmpty then (none, checked)
      else
        (some ⟨report.filing_url.getD "", filedAtStr tsToDate report.filed_at,
               matched_files⟩,
         checked)

/-- get_sec_reports: fetch the archive (propagating the missing-key
ValueError), return the empty list when the response is falsy or has no
values key, otherwise run the report loop and collect the retained
filings. -/
def get_sec_reports (apiKey : Option String) (fetch : String → Option String)
    (tsToDate : Int → String) (httpResult : Option FilingsResponse) :
    Except Unit (List Filing) :=
  match (make_api_request apiKey httpResult).result with
  | .error e => .error e
  | .ok data =>
    match data with
    | none => .ok []
    | some resp =>
      match resp.values with
      | none => .ok []
      | some reports =>
        .ok (reports.filterMap (fun report => (processReportT fetch tsToDate report).1))

/-- Trace of every URL get_sec_reports hands to check_dividend_content over
a whole values array, in loop order. -/
def sec_checked_urls (fetch : String → Option String) (tsToDate : Int → String)
    (reports : List Report) : List String :=
  reports.flatMap (fun report => (processReportT fetch tsToDate report).2)

/-- get_symbol_info: fetch the stocks endpoint (propagating the missing-key
ValueError); return None when the response is falsy, has no data key, or
its data value is falsy; otherwise build the result from the first element
when data is a list and from the single object otherwise, with the input
exchange as fallback. -/
def get_symbol_info (apiKey : Option String) (symbol exchange : String)
    (httpResult : Option StocksResponse) : Except Unit (Option InstrumentInfo) :=
  match (make_api_request apiKey httpResult).result with
  | .error e => .error e
  | .ok data =>
    match data with
    | none => .ok none
    | some resp =>
      match resp.data with
      | none => .ok none
      | some sd =>
        if !sd.isTruthy then .ok none
        else
          let stock_data :=
            match sd with
            | .dlist l => l.headD ⟨none, none, false⟩
            | .dobj r => r
          .ok (some ⟨stock_data.name.getD "", stock_data.exchange.getD exchange⟩)

/-- get_dividends: fetch the dividends calendar (propagating the
missing-key ValueError); return the empty list when the response is falsy
or not a flat list; otherwise keep the records whose symbol key equals the
requested symbol and project each to ex_date and amount with defaults. -/
def get_dividends (apiKey : Option String) (symbol : String)
    (httpResult : Option DividendsResponse) : Except Unit (List DividendEvent) :=
  match (make_api_request apiKey httpResult).result with
  | .error e => .error e
  | .ok data =>
    match data with
    | none => .ok []
    | some .nonList => .ok []
    | some (.jlist records) =>
      let symbol_dividends := records.filter (fun d => d.symbol == some symbol)
      .ok (symbol_dividends.map (fun d => ⟨d.ex_date.getD "", d.amount.getD 0⟩))

/-- process_symbol: resolve metadata and return None when it yields no
data; fetch SEC reports with the resolved exchange and return None when the
filtered list is empty; fetch dividends and return None when that list is
empty; otherwise assemble the SymbolResult.  A ValueError from any of the
three calls propagates to the caller. -/
def process_symbol (w : World) (symbol exchange : String) :
    Except Unit (Option SymbolResult) :=
  match get_symbol_info w.apiKey symbol exchange (w.stocksResp symbol exchange) with
  | .error e => .error e
  | .ok none => .ok none
  | .ok (some symbol_info) =>
    let actual_exchange := symbol_info.exchange
    match get_sec_reports w.apiKey w.fetch w.tsToDate
        (w.filingsResp symbol actual_exchange) with
    | .error e => .error e
    | .ok sec_reports =>
      if sec_reports.isEmpty then .ok none
      else
        match get_dividends w.apiKey symbol (w.dividendsResp symbol actual_exchange) with
        | .error e => .error e
        | .ok dividends =>
          if dividends.isEmpty then .ok none
          else .ok (some ⟨symbol, symbol_info.name, actual_exchange,
                          dividends, sec_reports⟩)

/-- The body of one iteration of the main loop, including its
try-except: an exception is counted as a failure and the loop continues, a
truthy result is appended and counted successful, a None result is counted
as a failure. -/
def processStep (acc : RunAcc) (outcome : Except Unit (Option SymbolResult)) : RunAcc :=
  match outcome with
  | .error _ => { acc with failed_count := acc.failed_count + 1 }
  | .ok (some symbol_data) =>
    { acc with results := acc.results ++ [symbol_data],
               successful_count := acc.successful_count + 1 }
  | .ok none => { acc with failed_count := acc.failed_count + 1 }

/-- The main loop over the loaded symbols, in file order. -/
def runLoop (w : World) (acc : RunAcc) (symbols : List (String × String)) : RunAcc :=
  symbols.foldl (fun a p => processStep a (process_symbol w p.1 p.2)) acc

/-- main: validate both dates (exit 1 on failure, modelled by the validDate
oracle for strptime), load symbols.csv (exit 1 when the file is absent),
apply the limit, run the loop, then write the results list (exit 1 when the
write raises, 0 otherwise).  The pair also exposes the final accumulator
when the run reaches the loop, for stating properties of the written list
and the logged tally. -/
def mainRun (validDate : String → Bool) (start_date end_date : String)
    (csvRows : Option (List CsvRow)) (limit : Int) (w : World) (writeOk : Bool) :
    Int × Option RunAcc :=
  if !(validDate start_date && validDate end_date) then (1, none)
  else
    match csvRows with
    | none => (1, none)
    | some rows =>
      let symbols := load_symbols rows
      let symbols := if limit > 0 then symbols.take limit.toNat else symbols
      let acc := runLoop w ⟨[], 0, 0⟩ symbols
      if writeOk then (0, some acc) else (1, some acc)

/-! Helper lemmas shared by the claim theorems. -/

theorem filter_map_eq_filterMap {α β : Type} (p : α → Bool) (f : α → β) (l : List α) :
    (l.filter p).map f = l.filterMap (fun a => if p a then some (f a) else none) := by
  induction l with
  | nil => rfl
  | cons a t ih =>
    by_cases hp : p a <;> simp [List.filter_cons, hp, ih]

theorem hasDividendKeyword_iff (content : String) :
    hasDividendKeyword content = true ↔
      "dividend".toList <:+: content.toList.map Char.toLower := by
  simp [hasDividendKeyword, pyContains, pyLower]

/-- C4: keyword matching is case-insensitive substring presence of
dividend in the fetched document text: content containing DIVIDEND or
Dividend Declared is classified a match, and content containing divided
without a case-insensitive dividend is not. -/
theorem dividend_keyword_match_spec (content : String) :
    ("DIVIDEND".toList <:+: content.toList → hasDividendKeyword content = true) ∧
    ("Dividend Declared".toList <:+: content.toList →
      hasDividendKeyword content = true) ∧
    ("divided".toList <:+: content.toList ∧
        ¬ "dividend".toList <:+: content.toList.map Char.toLower →
      hasDividendKeyword content = false) ∧
    (hasDividendKeyword content = true ↔
      "dividend".toList <:+: content.toList.map Char.toLower) := by
  refine ⟨?_, ?_, ?_, hasDividendKeyword_iff content⟩
  · intro h
    rw [hasDividendKeyword_iff]
    have h2 := h.map Char.toLower
    have e : "DIVIDEND".toList.map Char.toLower = "dividend".toList := by decide
    rwa [e] at h2
  · intro h
    rw [hasDividendKeyword_iff]
    have h2 := h.map Char.toLower
    have e : "Dividend Declared".toList.map Char.toLower =
        "dividend declared".toList := by decide
    rw [e] at h2
    exact (by decide : "dividend".toList <:+: "dividend declared".toList).trans h2
  · rintro ⟨-, h⟩
    rw [← Bool.not_eq_true, hasDividendKeyword_iff]
    exact h

/-- Witness for C4 at concrete document contents. -/
theorem dividend_keyword_match_spec_witness :
    hasDividendKeyword "Quarterly DIVIDEND announced" = true ∧
    hasDividendKeyword "A Dividend Declared today" = true ∧
    hasDividendKeyword "a house divided" = false :=
  ⟨(dividend_keyword_match_spec _).1 (by decide),
   (dividend_keyword_match_spec _).2.1 (by decide),
   (dividend_keyword_match_spec _).2.2.1 ⟨by decide, by decide⟩⟩

/-- C7: get_dividends keeps exactly the records whose symbol field equals
the requested symbol, projected to ex_date and amount with defaults, in
response order; an absent or non-list response yields the empty list. -/
theorem get_dividends_projection (apiKey : Option String) (symbol : String)
    (h : apiKey.getD "" ≠ "") :
    (∀ records : List DivRecord,
      get_dividends apiKey symbol (some (.jlist records)) =
        .ok (records.filterMap (fun d =>
          if d.symbol == some symbol then
            some ⟨d.ex_date.getD "", d.amount.getD 0⟩
          else none))) ∧
    get_dividends apiKey symbol none = .ok [] ∧
    get_dividends apiKey symbol (some .nonList) = .ok [] := by
  refine ⟨?_, ?_, ?_⟩
  · intro records
    simp only [get_dividends, make_api_request, if_neg h]
    rw [filter_map_eq_filterMap]
  · simp [get_dividends, make_api_request, h]
  · simp [get_dividends, make_api_request, h]

/-- Witness for C7 at a concrete three-record response. -/
theorem get_dividends_projection_witness :
    get_dividends (some "key") "AAPL"
      (some (.jlist
        [⟨some "AAPL", some "2024-05-10", some 1⟩,
         ⟨some "MSFT", some "2024-05-11", some 2⟩,
         ⟨some "AAPL", none, none⟩])) =
      .ok [⟨"2024-05-10", 1⟩, ⟨"", 0⟩] := by
  rw [(get_dividends_projection (some "key") "AAPL" (by decide)).1]
  rfl

/-- C8: metadata resolution returns absent when the response has no data
(request failure, missing data key, or a falsy data value); otherwise it
builds InstrumentInfo from the first element of a list-shaped data value
and from the single object otherwise, and the exchange field falls back to
the input-supplied exchange when the remote record omits it. -/
theorem get_symbol_info_resolution (apiKey : Option String)
    (symbol exchange : String) (h : apiKey.getD "" ≠ "") :
    (get_symbol_info apiKey symbol exchange none = .ok none) ∧
    (get_symbol_info apiKey symbol exchange (some ⟨none⟩) = .ok none) ∧
    (∀ sd : StocksData, sd.isTruthy = false →
      get_symbol_info apiKey symbol exchange (some ⟨some sd⟩) = .ok none) ∧
    (∀ (r : StockRecord) (l : List StockRecord),
      get_symbol_info apiKey symbol exchange (some ⟨some (.dlist (r :: l))⟩) =
        .ok (some ⟨r.name.getD "", r.exchange.getD exchange⟩)) ∧
    (∀ r : StockRecord, r.isTruthy = true →
      get_symbol_info apiKey symbol exchange (some ⟨some (.dobj r)⟩) =
        .ok (some ⟨r.name.getD "", r.exchange.getD exchange⟩)) ∧
    (∀ (r : StockRecord) (l : List StockRecord), r.exchange = none →
      get_symbol_info apiKey symbol exchange (some ⟨some (.dlist (r :: l))⟩) =
        .ok (some ⟨r.name.getD "", exchange⟩)) := by
  refine ⟨?_, ?_, ?_, ?_, ?_, ?_⟩
  · simp [get_symbol_info, make_api_request, h]
  · simp [get_symbol_info, make_api_request, h]
  · intro sd hsd
    simp [get_symbol_info, make_api_request, h, hsd]
  · intro r l
    simp [get_symbol_info, make_api_request, h, StocksData.isTruthy]
  · intro r hr
    simp [get_symbol_info, make_api_request, h, StocksData.isTruthy, hr]
  · intro r l hr
    simp [get_symbol_info, make_api_request, h, StocksData.isTruthy, hr]

/-- Witness for C8: a one-element data list whose record omits the
exchange resolves with the input-supplied exchange as fallback. -/
theorem get_symbol_info_resolution_witness :
    get_symbol_info (some "key") "AAPL" "NASDAQ"
      (some ⟨some (.dlist [⟨some "Apple Inc.", none, false⟩])⟩) =
      .ok (some ⟨"Apple Inc.", "NASDAQ"⟩) :=
  (get_symbol_info_resolution (some "key") "AAPL" "NASDAQ" (by decide)).2.2.2.2.2
    ⟨some "Apple Inc.", none, false⟩ [] rfl

theorem matchedFilesOf_nil (fetch : String → Option String) :
    matchedFilesOf fetch [] = [] := rfl

theorem pyEndsWith_htm_ne_empty {s : String}
    (h : pyEndsWith s ".htm" = true) : s ≠ "" := by
  intro he
  subst he
  exact absurd h (by decide)

theorem processReportT_fst_eq_some (fetch : String → Option String)
    (tsToDate : Int → String) (report : Report) (f : Filing) :
    (processReportT fetch tsToDate report).1 = some f ↔
      ∃ files, report.files = some files ∧
        matchedFilesOf fetch (htmFilesOf files) ≠ [] ∧
        f = ⟨report.filing_url.getD "", filedAtStr tsToDate report.filed_at,
             matchedFilesOf fetch (htmFilesOf files)⟩ := by
  cases hf : report.files with
  | none => simp [processReportT, hf]
  | some files =>
    by_cases h1 : (htmFilesOf files).isEmpty
    · have hm : matchedFilesOf fetch (htmFilesOf files) = [] := by
        rw [List.isEmpty_iff.mp h1]
        rfl
      simp [processReportT, hf, h1, hm]
    · by_cases h2 : (matchedFilesOf fetch (htmFilesOf files)).isEmpty
      · have h2' := List.isEmpty_iff.mp h2
        simp [processReportT, hf, h1, h2, h2']
      · have h2' : matchedFilesOf fetch (htmFilesOf files) ≠ [] := by
          intro he
          exact h2 (List.isEmpty_iff.mpr he)
        simp [processReportT, hf, h1, h2, h2', eq_comm]

/-- Shared concrete remote world used by the closed witnesses: the API key
is present and the stocks endpoint answers with a body without a data key,
so every symbol resolves to no data. -/
def trivWorld : World :=
  ⟨some "key", fun _ _ => some ⟨none⟩, fun _ _ => none, fun _ _ => none,
   fun _ => none, fun _ => ""⟩

/-- Shared concrete remote world with the API key absent. -/
def noKeyWorld : World :=
  ⟨none, fun _ _ => none, fun _ _ => none, fun _ _ => none,
   fun _ => none, fun _ => ""⟩

/-- C3: get_sec_reports retains a filing if and only if at least one of
its documents matched the keyword, a retained filing carries exactly the
matched documents, and a filing with documents but none matching never
appears in the returned list. -/
theorem get_sec_reports_retained_iff_matched (apiKey : Option String)
    (fetch : String → Option String) (tsToDate : Int → String)
    (reports : List Report) (h : apiKey.getD "" ≠ "") :
    ∃ reps, get_sec_reports apiKey fetch tsToDate (some ⟨some reports⟩) = .ok reps ∧
      ∀ f : Filing, f ∈ reps ↔
        ∃ report ∈ reports, ∃ files, report.files = some files ∧
          matchedFilesOf fetch (htmFilesOf files) ≠ [] ∧
          f = ⟨report.filing_url.getD "", filedAtStr tsToDate report.filed_at,
               matchedFilesOf fetch (htmFilesOf files)⟩ := by
  refine ⟨reports.filterMap (fun report => (processReportT fetch tsToDate report).1),
          ?_, ?_⟩
  · simp [get_sec_reports, make_api_request, h]
  · intro f
    rw [List.mem_filterMap]
    constructor
    · rintro ⟨report, hmem, hsome⟩
      obtain ⟨files, h1, h2, h3⟩ := (processReportT_fst_eq_some _ _ _ _).mp hsome
      exact ⟨report, hmem, files, h1, h2, h3⟩
    · rintro ⟨report, hmem, files, h1, h2, h3⟩
      exact ⟨report, hmem,
        (processReportT_fst_eq_some _ _ _ _).mpr ⟨files, h1, h2, h3⟩⟩

/-- Witness for C3 at a concrete filings response: one filing with a
matching htm document and one filing whose only document is not htm. -/
theorem get_sec_reports_retained_iff_matched_witness :
    ∃ reps, get_sec_reports (some "key") (fun _ => some "dividend") (fun _ => "")
        (some ⟨some [⟨some [⟨some "a.htm", some "8-K"⟩], none, some "http://f"⟩,
                     ⟨some [⟨some "b.txt", none⟩], none, none⟩]⟩) = .ok reps ∧
      ∀ f : Filing, f ∈ reps ↔
        ∃ report ∈ [(⟨some [⟨some "a.htm", some "8-K"⟩], none, some "http://f"⟩ : Report),
                    ⟨some [⟨some "b.txt", none⟩], none, none⟩],
          ∃ files, report.files = some files ∧
            matchedFilesOf (fun _ => some "dividend") (htmFilesOf files) ≠ [] ∧
            f = ⟨report.filing_url.getD "",
                 filedAtStr (fun _ => "") report.filed_at,
                 matchedFilesOf (fun _ => some "dividend") (htmFilesOf files)⟩ :=
  get_sec_reports_retained_iff_matched (some "key") (fun _ => some "dividend")
    (fun _ => "") _ (by decide)

theorem processReportT_snd_mem (fetch : String → Option String)
    (tsToDate : Int → String) (report : Report) (u : String) :
    u ∈ (processReportT fetch tsToDate report).2 ↔
      ∃ files, report.files = some files ∧
        ∃ fi ∈ files, pyEndsWith (fi.url.getD "") ".htm" = true ∧
          u = pyReplace (fi.url.getD "") "/ix?doc=/Archives" "/Archives" := by
  cases hf : report.files with
  | none => simp [processReportT, hf]
  | some files =>
    by_cases h1 : (htmFilesOf files).isEmpty
    · have h1' := List.isEmpty_iff.mp h1
      rw [htmFilesOf] at h1'
      simp only [processReportT, hf, h1, if_true, List.not_mem_nil, false_iff]
      rintro ⟨files', hfe, fi, hfi, hext, -⟩
      obtain rfl : files = files' := Option.some.inj hfe
      have := List.filter_eq_nil_iff.mp h1' fi hfi
      simp [hext] at this
    · have htr : (processReportT fetch tsToDate report).2 =
          checkedUrlsOf (htmFilesOf files) := by
        by_cases h2 : (matchedFilesOf fetch (htmFilesOf files)).isEmpty <;>
          simp [processReportT, hf, h1, h2]
      rw [htr, checkedUrlsOf, List.mem_filterMap]
      constructor
      · rintro ⟨fi, hfi, hstep⟩
        rw [htmFilesOf, List.mem_filter] at hfi
        obtain ⟨hfiles, hext⟩ := hfi
        refine ⟨files, rfl, fi, hfiles, hext, ?_⟩
        rw [checkStep, if_neg (pyEndsWith_htm_ne_empty hext)] at hstep
        exact (Option.some.inj hstep).symm
      · rintro ⟨files', hfe, fi, hfi, hext, hu⟩
        obtain rfl : files = files' := Option.some.inj hfe
        refine ⟨fi, ?_, ?_⟩
        · rw [htmFilesOf, List.mem_filter]
          exact ⟨hfi, hext⟩
        · rw [checkStep, if_neg (pyEndsWith_htm_ne_empty hext), hu]

/-- C5: a URL is handed to check_dividend_content by the report loop if
and only if it is the normalized URL of a document of some filing of the
response whose raw URL ends in the HTML extension; in particular a
document whose URL does not end in .htm is never fetched for content
matching. -/
theorem checked_urls_iff_htm (fetch : String → Option String)
    (tsToDate : Int → String) (reports : List Report) (u : String) :
    u ∈ sec_checked_urls fetch tsToDate reports ↔
      ∃ report ∈ reports, ∃ files, report.files = some files ∧
        ∃ fi ∈ files, pyEndsWith (fi.url.getD "") ".htm" = true ∧
          u = pyReplace (fi.url.getD "") "/ix?doc=/Archives" "/Archives" := by
  rw [sec_checked_urls, List.mem_flatMap]
  constructor
  · rintro ⟨report, hmem, hu⟩
    obtain ⟨files, h1, h2⟩ := (processReportT_snd_mem _ _ _ _).mp hu
    exact ⟨report, hmem, files, h1, h2⟩
  · rintro ⟨report, hmem, files, h1, h2⟩
    exact ⟨report, hmem, (processReportT_snd_mem _ _ _ _).mpr ⟨files, h1, h2⟩⟩

/-- C1: process_symbol emits a result exactly when metadata resolution
returned data, the filtered filing list is non-empty, and the dividend
list is non-empty; when it instead returns absent, the main loop records
no entry and increments the failure counter. -/
theorem process_symbol_emits_iff (w : World) (symbol exchange : String) :
    ((∃ r : SymbolResult, process_symbol w symbol exchange = .ok (some r)) ↔
      ∃ info, get_symbol_info w.apiKey symbol exchange
          (w.stocksResp symbol exchange) = .ok (some info) ∧
        ∃ reps, get_sec_reports w.apiKey w.fetch w.tsToDate
            (w.filingsResp symbol info.exchange) = .ok reps ∧ reps ≠ [] ∧
          ∃ divs, get_dividends w.apiKey symbol
              (w.dividendsResp symbol info.exchange) = .ok divs ∧ divs ≠ []) ∧
    (∀ acc : RunAcc, process_symbol w symbol exchange = .ok none →
      processStep acc (process_symbol w symbol exchange) =
        { acc with failed_count := acc.failed_count + 1 }) := by
  constructor
  · unfold process_symbol
    cases hsi : get_symbol_info w.apiKey symbol exchange
        (w.stocksResp symbol exchange) with
    | error e => simp [hsi]
    | ok oinfo =>
      cases oinfo with
      | none => simp [hsi]
      | some info =>
        simp only [hsi, Except.ok.injEq, Option.some.injEq]
        cases hsr : get_sec_reports w.apiKey w.fetch w.tsToDate
            (w.filingsResp symbol info.exchange) with
        | error e => simp [hsr]
        | ok reps =>
          by_cases hre : reps = []
          · simp [hsr, hre]
          · have hre2 : reps.isEmpty = false := by
              simp [List.isEmpty_iff, hre]
            cases hd : get_dividends w.apiKey symbol
                (w.dividendsResp symbol info.exchange) with
            | error e => simp [hsr, hre2, hd]
            | ok divs =>
              by_cases hde : divs = []
              · simp [hsr, hre2, hd, hde]
              · have hde2 : divs.isEmpty = false := by
                  simp [List.isEmpty_iff, hde]
                simp [hsr, hre, hre2, hd, hde, hde2]
  · intro acc h
    rw [h]
    rfl

/-- Witness for C1: with metadata resolution yielding no data, the symbol
adds no entry and the failure counter goes up. -/
theorem process_symbol_emits_iff_witness :
    process_symbol trivWorld "AAPL" "NASDAQ" = .ok none ∧
    processStep ⟨[], 0, 0⟩ (process_symbol trivWorld "AAPL" "NASDAQ") =
      ⟨[], 0, 0 + 1⟩ :=
  ⟨rfl, (process_symbol_emits_iff trivWorld "AAPL" "NASDAQ").2 ⟨[], 0, 0⟩ rfl⟩

theorem runLoop_cons_eq (w : World) (acc : RunAcc) (p : String × String)
    (rest : List (String × String)) :
    runLoop w acc (p :: rest) =
      runLoop w (processStep acc (process_symbol w p.1 p.2)) rest := rfl

theorem processStep_len_eq (acc : RunAcc) (out : Except Unit (Option SymbolResult))
    (h : acc.results.length = acc.successful_count) :
    (processStep acc out).results.length = (processStep acc out).successful_count := by
  cases out with
  | error e => simpa [processStep]
  | ok o =>
    cases o with
    | none => simpa [processStep]
    | some r => simp [processStep, h]

theorem processStep_tally (acc : RunAcc) (out : Except Unit (Option SymbolResult)) :
    (processStep acc out).successful_count + (processStep acc out).failed_count =
      acc.successful_count + acc.failed_count + 1 := by
  cases out with
  | error e => simp [processStep]; omega
  | ok o =>
    cases o with
    | none => simp [processStep]; omega
    | some r => simp [processStep]; omega

theorem runLoop_len_inv (w : World) (symbols : List (String × String)) :
    ∀ acc : RunAcc, acc.results.length = acc.successful_count →
      (runLoop w acc symbols).results.length =
        (runLoop w acc symbols).successful_count := by
  induction symbols with
  | nil => exact fun acc h => h
  | cons p rest ih =>
    intro acc h
    rw [runLoop_cons_eq]
    exact ih _ (processStep_len_eq acc _ h)

theorem runLoop_tally (w : World) (symbols : List (String × String)) :
    ∀ acc : RunAcc,
      (runLoop w acc symbols).successful_count + (runLoop w acc symbols).failed_count =
        acc.successful_count + acc.failed_count + symbols.length := by
  induction symbols with
  | nil => intro acc; simp [runLoop]
  | cons p rest ih =>
    intro acc
    rw [runLoop_cons_eq, ih]
    have := processStep_tally acc (process_symbol w p.1 p.2)
    simp only [List.length_cons]
    omega

theorem mainRun_eq_of_valid (validDate : String → Bool) (sd ed : String)
    (rows : List CsvRow) (limit : Int) (w : World) (writeOk : Bool)
    (hv : (validDate sd && validDate ed) = true) :
    mainRun validDate sd ed (some rows) limit w writeOk =
      ((if writeOk then 0 else 1 : Int),
       some (runLoop w ⟨[], 0, 0⟩
         (if limit > 0 then (load_symbols rows).take limit.toNat
          else load_symbols rows))) := by
  unfold mainRun
  rw [hv]
  cases writeOk <;> rfl

theorem mainRun_snd_eq (validDate : String → Bool) (sd ed : String)
    (rows : List CsvRow) (limit : Int) (w : World) (writeOk : Bool) (acc : RunAcc)
    (h : (mainRun validDate sd ed (some rows) limit w writeOk).2 = some acc) :
    acc = runLoop w ⟨[], 0, 0⟩
      (if limit > 0 then (load_symbols rows).take limit.toNat
       else load_symbols rows) := by
  by_cases hv : (validDate sd && validDate ed) = true
  · rw [mainRun_eq_of_valid validDate sd ed rows limit w writeOk hv] at h
    exact (Option.some.inj h).symm
  · rw [Bool.not_eq_true] at hv
    unfold mainRun at h
    rw [hv] at h
    simp at h

/-- C6: whenever the run reaches the output stage, the serialized results
list has length equal to the successful-symbol count of the run summary. -/
theorem output_length_eq_successful_count (validDate : String → Bool)
    (sd ed : String) (csvRows : Option (List CsvRow)) (limit : Int) (w : World)
    (writeOk : Bool) (acc : RunAcc)
    (h : (mainRun validDate sd ed csvRows limit w writeOk).2 = some acc) :
    acc.results.length = acc.successful_count := by
  cases csvRows with
  | none =>
    unfold mainRun at h
    split at h <;> simp at h
  | some rows =>
    rw [mainRun_snd_eq validDate sd ed rows limit w writeOk acc h]
    exact runLoop_len_inv w _ ⟨[], 0, 0⟩ rfl

/-- Witness for C6 at a concrete one-symbol run. -/
theorem output_length_eq_successful_count_witness :
    (⟨[], 0, 1⟩ : RunAcc).results.length = (⟨[], 0, 1⟩ : RunAcc).successful_count :=
  output_length_eq_successful_count (fun _ => true) "2024-01-01" "2024-12-31"
    (some [⟨"AAPL", "NASDAQ"⟩]) 0 trivWorld true ⟨[], 0, 1⟩ rfl

/-- C9: an exception raised while processing one symbol is caught at the
per-symbol boundary and counted as a failure with no entry recorded, the
loop then continues with the remaining symbols, and a run that reaches
output writing successfully exits with code 0 regardless of how many
symbols failed. -/
theorem per_symbol_errors_caught_run_exits_zero :
    (∀ acc : RunAcc, processStep acc (.error ()) =
      { acc with failed_count := acc.failed_count + 1 }) ∧
    (∀ (w : World) (acc : RunAcc) (p : String × String)
        (rest : List (String × String)),
      runLoop w acc (p :: rest) =
        runLoop w (processStep acc (process_symbol w p.1 p.2)) rest) ∧
    (∀ (validDate : String → Bool) (sd ed : String) (rows : List CsvRow)
        (limit : Int) (w : World),
      validDate sd = true → validDate ed = true →
      (mainRun validDate sd ed (some rows) limit w true).1 = 0) := by
  refine ⟨fun acc => rfl, fun w acc p rest => rfl, ?_⟩
  intro validDate sd ed rows limit w h1 h2
  rw [mainRun_eq_of_valid validDate sd ed rows limit w true (by rw [h1, h2]; rfl)]
  rfl

/-- Witness for C9: an error outcome on a one-symbol run is counted and
the run still exits 0. -/
theorem per_symbol_errors_caught_run_exits_zero_witness :
    processStep ⟨[], 2, 3⟩ (.error ()) = ⟨[], 2, 3 + 1⟩ ∧
    (mainRun (fun _ => true) "2024-01-01" "2024-12-31"
      (some [⟨"AAPL", "NASDAQ"⟩]) 0 noKeyWorld true).1 = 0 :=
  ⟨per_symbol_errors_caught_run_exits_zero.1 ⟨[], 2, 3⟩,
   per_symbol_errors_caught_run_exits_zero.2.2 (fun _ => true)
     "2024-01-01" "2024-12-31" [⟨"AAPL", "NASDAQ"⟩] 0 noKeyWorld rfl rfl⟩

theorem process_symbol_ticker (w : World) (s e : String) (r : SymbolResult)
    (h : process_symbol w s e = .ok (some r)) : r.ticker = s := by
  unfold process_symbol at h
  dsimp only at h
  split at h
  · exact absurd h (by simp)
  · exact absurd h (by simp)
  · split at h
    · exact absurd h (by simp)
    · split at h
      · exact absurd h (by simp)
      · split at h
        · exact absurd h (by simp)
        · split at h
          · exact absurd h (by simp)
          · obtain rfl : _ = r := Option.some.inj (Except.ok.inj h)
            rfl

theorem runLoop_results_sub (w : World) (symbols : List (String × String)) :
    ∀ acc : RunAcc, ∃ t : List SymbolResult,
      (runLoop w acc symbols).results = acc.results ++ t ∧
      List.Sublist (t.map SymbolResult.ticker) (symbols.map Prod.fst) := by
  induction symbols with
  | nil => exact fun acc => ⟨[], by simp [runLoop], by simp⟩
  | cons p rest ih =>
    intro acc
    rw [runLoop_cons_eq]
    cases hps : process_symbol w p.1 p.2 with
    | error e =>
      obtain ⟨t, h1, h2⟩ := ih (processStep acc (.error e))
      exact ⟨t, by simpa [processStep] using h1,
             h2.trans (List.sublist_cons_self _ _)⟩
    | ok o =>
      cases o with
      | none =>
        obtain ⟨t, h1, h2⟩ := ih (processStep acc (.ok none))
        exact ⟨t, by simpa [processStep] using h1,
               h2.trans (List.sublist_cons_self _ _)⟩
      | some r =>
        obtain ⟨t, h1, h2⟩ := ih (processStep acc (.ok (some r)))
        refine ⟨r :: t, ?_, ?_⟩
        · rw [h1]
          simp [processStep]
        · simp only [List.map_cons, process_symbol_ticker w p.1 p.2 r hps]
          exact h2.cons₂ _

/-- C10: a run that reaches the loop writes a results list whose ticker
sequence is a subsequence of the loaded input symbols in file order, and
every attempted symbol lands in exactly one of the two tallies. -/
theorem output_order_and_tally (validDate : String → Bool) (sd ed : String)
    (rows : List CsvRow) (limit : Int) (w : World) (writeOk : Bool) (acc : RunAcc)
    (h : (mainRun validDate sd ed (some rows) limit w writeOk).2 = some acc) :
    List.Sublist (acc.results.map SymbolResult.ticker)
      ((load_symbols rows).map Prod.fst) ∧
    acc.successful_count + acc.failed_count =
      (if limit > 0 then (load_symbols rows).take limit.toNat
       else load_symbols rows).length := by
  rw [mainRun_snd_eq validDate sd ed rows limit w writeOk acc h]
  constructor
  · obtain ⟨t, h1, h2⟩ := runLoop_results_sub w
      (if limit > 0 then (load_symbols rows).take limit.toNat
       else load_symbols rows) ⟨[], 0, 0⟩
    rw [h1]
    simp only [List.nil_append]
    refine h2.trans (List.Sublist.map Prod.fst ?_)
    by_cases hl : limit > 0
    · simp only [hl, if_true]
      exact List.take_sublist _ _
    · simp only [hl, if_false]
      exact List.Sublist.refl _
  · have h3 := runLoop_tally w
      (if limit > 0 then (load_symbols rows).take limit.toNat
       else load_symbols rows) ⟨[], 0, 0⟩
    dsimp only at h3
    omega

/-- Witness for C10 at a concrete one-symbol run whose symbol fails. -/
theorem output_order_and_tally_witness :
    List.Sublist ((⟨[], 0, 1⟩ : RunAcc).results.map SymbolResult.ticker)
      ((load_symbols [⟨"AAPL", "NASDAQ"⟩]).map Prod.fst) ∧
    (⟨[], 0, 1⟩ : RunAcc).successful_count + (⟨[], 0, 1⟩ : RunAcc).failed_count =
      (if (0 : Int) > 0 then (load_symbols [⟨"AAPL", "NASDAQ"⟩]).take (0 : Int).toNat
       else load_symbols [⟨"AAPL", "NASDAQ"⟩]).length :=
  output_order_and_tally (fun _ => true) "2024-01-01" "2024-12-31"
    [⟨"AAPL", "NASDAQ"⟩] 0 trivWorld true ⟨[], 0, 1⟩ rfl

/-- C2 counterexample: with the API key absent, valid dates, an input file
with one symbol, and a successful write, the run completes with exit code
0 (the symbol is merely counted failed), not the fatal exit code 1 the
claim states. -/
theorem missing_api_key_no_abort_counterexample :
    mainRun (fun _ => true) "2024-01-01" "2024-12-31"
        (some [⟨"AAPL", "NASDAQ"⟩]) 0 noKeyWorld true = (0, some ⟨[], 0, 1⟩) ∧
    (0 : Int) ≠ 1 :=
  ⟨rfl, by decide⟩

theorem process_symbol_error_of_no_key (w : World) (s e : String)
    (hw : w.apiKey.getD "" = "") : process_symbol w s e = .error () := by
  unfold process_symbol get_symbol_info make_api_request
  simp [hw]

theorem runLoop_all_error_of_no_key (w : World) (hw : w.apiKey.getD "" = "")
    (symbols : List (String × String)) :
    ∀ acc : RunAcc, runLoop w acc symbols =
      ⟨acc.results, acc.successful_count, acc.failed_count + symbols.length⟩ := by
  induction symbols with
  | nil =>
    intro acc
    simp [runLoop]
  | cons p rest ih =>
    intro acc
    rw [runLoop_cons_eq, process_symbol_error_of_no_key w p.1 p.2 hw, ih]
    simp only [processStep, List.length_cons]
    congr 1
    omega

/-- C2 amended: when the API-key environment variable is absent (or
empty), every make_api_request call raises the ValueError before any HTTP
request is attempted; in main this error is caught at the per-symbol
boundary, so a run with valid dates and a present input file counts every
attempted symbol as failed, records no results, and exits with code 0
rather than aborting. -/
theorem missing_api_key_caught_per_symbol (w : World)
    (hw : w.apiKey.getD "" = "") :
    (∀ {α : Type} (httpResult : Option α),
      make_api_request w.apiKey httpResult = ⟨.error (), false⟩) ∧
    (∀ s e : String, process_symbol w s e = .error ()) ∧
    (∀ (validDate : String → Bool) (sd ed : String) (rows : List CsvRow)
        (limit : Int),
      validDate sd = true → validDate ed = true →
      mainRun validDate sd ed (some rows) limit w true =
        (0, some ⟨[], 0,
          (if limit > 0 then (load_symbols rows).take limit.toNat
           else load_symbols rows).length⟩)) := by
  refine ⟨?_, fun s e => process_symbol_error_of_no_key w s e hw, ?_⟩
  · intro α httpResult
    rw [make_api_request, if_pos hw]
  · intro validDate sd ed rows limit h1 h2
    rw [mainRun_eq_of_valid validDate sd ed rows limit w true (by rw [h1, h2]; rfl),
      runLoop_all_error_of_no_key w hw]
    simp

/-- Witness for the amended C2 at a concrete run. -/
theorem missing_api_key_caught_per_symbol_witness :
    make_api_request noKeyWorld.apiKey (none : Option Nat) = ⟨.error (), false⟩ ∧
    mainRun (fun _ => true) "2024-01-01" "2024-12-31"
        (some [⟨"AAPL", "NASDAQ"⟩]) 0 noKeyWorld true = (0, some ⟨[], 0, 1⟩) := by
  refine ⟨(missing_api_key_caught_per_symbol noKeyWorld rfl).1 none, ?_⟩
  have h := (missing_api_key_caught_per_symbol noKeyWorld rfl).2.2
    (fun _ => true) "2024-01-01" "2024-12-31" [⟨"AAPL", "NASDAQ"⟩] 0 rfl rfl
  exact h
